import Mathlib

/-!
Verification development for the VoiceStreamAI per-connection session
pipeline.  The repository source (src/main.py) contains the outer wiring:
the health-check HTTP handler, the command-line surface and the
construction of the Server.  Those parts are embedded directly from the
source.  The core pipeline (SegmentAssembler, TranscriptionDispatcher
serialization) is specified but not present in the repository; those
components are modelled from the specification text, as indicated in each
doc comment.
-/

/- ------------------------------------------------------------------ -/
/- Part 1: the SegmentAssembler, modelled from the specification. -/
/- ------------------------------------------------------------------ -/

/-- Modelled from the spec: the VAD classification of one window of audio,
one of SPEECH, SILENCE, UNCERTAIN (spec 4.2). -/
inductive Vad where
  | speech
  | silence
  | uncertain
  deriving DecidableEq

/-- Modelled from the spec: one audio frame as consumed by the assembler,
carrying its duration and the detector label of its window. -/
structure LFrame where
  dur : Nat
  label : Vad
  deriving DecidableEq

/-- Modelled from the spec: the SegmentAssembler policy constants
(spec 4.3): minimum segment duration, maximum duration cap, and
trailing-silence grace duration. -/
structure SAConfig where
  minDur : Nat
  maxDur : Nat
  grace : Nat
  deriving DecidableEq

/-- Modelled from the spec: the SegmentAssembler control states IDLE,
ACCUMULATING, TRAILING_SILENCE (spec 4.3).  FINALIZING is transient:
emit and reset to IDLE. -/
inductive Phase where
  | idle
  | accumulating
  | trailing
  deriving DecidableEq

/-- Modelled from the spec: the mutable SegmentAssembler state: control
phase, the accumulating buffer, and the running trailing-silence timer. -/
structure SAState where
  phase : Phase
  buf : List LFrame
  silTimer : Nat
  deriving DecidableEq

/-- Total duration of a list of frames. -/
def sumDur (l : List LFrame) : Nat := (l.map LFrame.dur).sum

/-- Modelled from the spec: output of one assembler action, or of a whole
run: resulting state, segments emitted (each a list of frames), and
frames discarded under a documented policy. -/
structure SAOut where
  st : SAState
  emits : List (List LFrame)
  disc : List LFrame
  deriving DecidableEq

/-- Modelled from the spec: finalization of a candidate buffer.  A buffer
meeting the minimum segment duration is emitted as one segment; a shorter
buffer is discarded as noise, not emitted (spec 4.3 policy constants). -/
def finalizeBuf (cfg : SAConfig) (buf : List LFrame) :
    List (List LFrame) × List LFrame :=
  if cfg.minDur ≤ sumDur buf then ([buf], []) else ([], buf)

/-- Modelled from the spec: after appending a frame to the buffer, check
the maximum-duration cap: if reached, finalize and reset to IDLE;
otherwise continue in the given phase (spec 4.3). -/
def capOrStay (cfg : SAConfig) (buf : List LFrame) (ph : Phase) (t : Nat) :
    SAOut :=
  if cfg.maxDur ≤ sumDur buf then
    ⟨⟨.idle, [], 0⟩, (finalizeBuf cfg buf).1, (finalizeBuf cfg buf).2⟩
  else ⟨⟨ph, buf, t⟩, [], []⟩

/-- Modelled from the spec: one SegmentAssembler transition (spec 4.3).
SPEECH: start or extend the buffer, transitioning to ACCUMULATING, then
check the cap.  SILENCE in IDLE: discard the frame as confirmed silence.
SILENCE while buffering: append it as trailing silence while the grace
budget allows, transitioning to TRAILING_SILENCE; when the silence timer
would exceed the grace duration, finalize the buffer and discard the
frame.  UNCERTAIN: treat as continuation of the current state, no
transition (spec 4.3 edge cases). -/
def saStep (cfg : SAConfig) (s : SAState) (f : LFrame) : SAOut :=
  match f.label with
  | .uncertain =>
    match s.phase with
    | .idle => ⟨s, [], [f]⟩
    | _ => ⟨⟨s.phase, s.buf ++ [f], s.silTimer⟩, [], []⟩
  | .speech => capOrStay cfg (s.buf ++ [f]) .accumulating 0
  | .silence =>
    match s.phase with
    | .idle => ⟨s, [], [f]⟩
    | _ =>
      if s.silTimer + f.dur ≤ cfg.grace then
        capOrStay cfg (s.buf ++ [f]) .trailing (s.silTimer + f.dur)
      else
        ⟨⟨.idle, [], 0⟩, (finalizeBuf cfg s.buf).1,
          (finalizeBuf cfg s.buf).2 ++ [f]⟩

/-- Modelled from the spec: run the assembler over a list of frames from
a given state, collecting emitted segments and discarded frames. -/
def saRunFrom (cfg : SAConfig) (s : SAState) : List LFrame → SAOut
  | [] => ⟨s, [], []⟩
  | f :: fs =>
    let o := saStep cfg s f
    let r := saRunFrom cfg o.st fs
    ⟨r.st, o.emits ++ r.emits, o.disc ++ r.disc⟩

/-- The initial SegmentAssembler state: IDLE with an empty buffer. -/
def saInit : SAState := ⟨.idle, [], 0⟩

/-- Run the assembler from the initial state. -/
def saRun (cfg : SAConfig) (fs : List LFrame) : SAOut :=
  saRunFrom cfg saInit fs

/-- Modelled from the spec: connection close / end-of-stream flush
(spec 4.3): a non-empty buffer is finalized as a last segment, subject to
the minimum-duration policy; an empty buffer emits nothing. -/
def closeFlush (cfg : SAConfig) (s : SAState) :
    List (List LFrame) × List LFrame :=
  if s.buf = [] then ([], []) else finalizeBuf cfg s.buf

/-- Segments and discards of a complete session: stream the frames, then
flush at end-of-stream. -/
structure CloseOut where
  emits : List (List LFrame)
  disc : List LFrame
  deriving DecidableEq

/-- Modelled from the spec: a full session run: process every frame, then
the end-of-stream flush. -/
def saRunClose (cfg : SAConfig) (fs : List LFrame) : CloseOut :=
  ⟨(saRun cfg fs).emits ++ (closeFlush cfg (saRun cfg fs).st).1,
   (saRun cfg fs).disc ++ (closeFlush cfg (saRun cfg fs).st).2⟩

/- ------------------------------------------------------------------ -/
/- Part 2: the per-session TranscriptionDispatcher discipline,
   modelled from the specification (spec 4.4, 5). -/
/- ------------------------------------------------------------------ -/

/-- Modelled from the spec: the per-session dispatch state (spec 4.4):
the sequence counter for segments, the at-most-one in-flight segment
(by its sequence number), the bounded oldest-first queue of pending
segments, and the results delivered so far, in delivery order. -/
structure DispState where
  nextSeq : Nat
  inFlight : Option Nat
  queue : List Nat
  delivered : List Nat
  deriving DecidableEq

/-- Modelled from the spec: the two events a session's dispatch loop
reacts to: a newly finalized segment, and completion of the in-flight
transcription. -/
inductive DispEvent where
  | finalize
  | complete
  deriving DecidableEq

/-- Modelled from the spec: one dispatch transition (spec 4.4).  A newly
finalized segment is sent immediately when nothing is in flight;
otherwise it is appended to the bounded queue (when the queue is full the
receiver is suspended, so the segment is not accepted).  On completion,
the in-flight result is delivered and the oldest queued segment, if any,
becomes the new in-flight segment. -/
def dispStep (bound : Nat) (s : DispState) : DispEvent → DispState
  | .finalize =>
    match s.inFlight with
    | none => { s with nextSeq := s.nextSeq + 1, inFlight := some s.nextSeq }
    | some _ =>
      if s.queue.length < bound then
        { s with nextSeq := s.nextSeq + 1, queue := s.queue ++ [s.nextSeq] }
      else s
  | .complete =>
    match s.inFlight with
    | none => s
    | some j =>
      match s.queue with
      | [] => { s with inFlight := none, delivered := s.delivered ++ [j] }
      | k :: rest =>
        { s with inFlight := some k, queue := rest,
                 delivered := s.delivered ++ [j] }

/-- The initial dispatch state of a fresh session. -/
def dispInit : DispState := ⟨0, none, [], []⟩

/-- Modelled from the spec: a session's dispatch loop over a sequence of
events. -/
def dispRun (bound : Nat) (evs : List DispEvent) : DispState :=
  evs.foldl (dispStep bound) dispInit

/-- The inductive invariant of the dispatch loop: delivered results, the
in-flight segment and the queue together list every finalized sequence
number exactly once, in order; the queue respects its bound; and the
queue is only non-empty while a segment is in flight. -/
def dispInv (bound : Nat) (s : DispState) : Prop :=
  s.delivered ++ s.inFlight.toList ++ s.queue = List.range s.nextSeq ∧
  s.queue.length ≤ bound ∧
  (s.inFlight = none → s.queue = [])

/- ------------------------------------------------------------------ -/
/- Part 3: embedding of src/main.py. -/
/- ------------------------------------------------------------------ -/

/-- An HTTP response as produced by an aiohttp handler: body text and
status code (src/main.py line 13). -/
structure HttpResponse where
  text : String
  status : Nat
  deriving DecidableEq

/-- An incoming HTTP request, opaque to the health handler. -/
structure HttpRequest where
  path : String
  deriving DecidableEq

/-- Embedding of health_check (src/main.py lines 12-13): respond with
body OK and status 200, ignoring the request. -/
def health_check (_req : HttpRequest) : HttpResponse := ⟨"OK", 200⟩

/-- Embedding of the argparse surface of parse_args (src/main.py lines
15-79): the fields of the parsed argument namespace. -/
structure Args where
  vad_type : String
  vad_args : String
  asr_type : String
  asr_args : String
  host : String
  port : Nat
  certfile : Option String
  keyfile : Option String
  log_level : String
  http_port : Nat
  deriving DecidableEq

/-- The argparse defaults of parse_args (src/main.py). -/
def defaultArgs : Args :=
  ⟨"pyannote", "\x7b\"auth_token\": \"huggingface_token\"\x7d",
   "faster_whisper", "\x7b\"model_size\": \"large-v3\"\x7d",
   "127.0.0.1", 8765, none, none, "error", 8080⟩

/-- One command-line option accepted by parse_args (src/main.py): exactly
the declared flags, each with its value.  There is no flag for the
sampling rate or the sample width. -/
inductive CliOpt where
  | vadType (v : String)
  | vadArgs (v : String)
  | asrType (v : String)
  | asrArgs (v : String)
  | host (v : String)
  | port (v : Nat)
  | certfile (v : String)
  | keyfile (v : String)
  | logLevel (v : String)
  | httpPort (v : Nat)
  deriving DecidableEq

/-- Apply one parsed command-line option to the argument namespace. -/
def applyOpt (a : Args) : CliOpt → Args
  | .vadType v => { a with vad_type := v }
  | .vadArgs v => { a with vad_args := v }
  | .asrType v => { a with asr_type := v }
  | .asrArgs v => { a with asr_args := v }
  | .host v => { a with host := v }
  | .port v => { a with port := v }
  | .certfile v => { a with certfile := some v }
  | .keyfile v => { a with keyfile := some v }
  | .logLevel v => { a with log_level := v }
  | .httpPort v => { a with http_port := v }

/-- Embedding of parse_args (src/main.py lines 15-79): defaults,
overridden left to right by the options on the command line. -/
def parse_args (opts : List CliOpt) : Args :=
  opts.foldl applyOpt defaultArgs

/-- The keyword arguments with which main constructs the Server
(src/main.py lines 106-115). -/
structure ServerConfig where
  host : String
  port : Nat
  sampling_rate : Nat
  samples_width : Nat
  certfile : Option String
  keyfile : Option String
  deriving DecidableEq

/-- The outcome of main (src/main.py lines 90-120): either an early
return after printing a JSON parse error, or a started server with its
constructed VAD pipeline, ASR pipeline and Server configuration. -/
inductive MainResult (α : Type) where
  | parseError (msg : String)
  | started (vad_pipeline : α) (asr_pipeline : α) (server : ServerConfig)
  deriving DecidableEq

/-- Embedding of main (src/main.py lines 90-120): parse the arguments,
decode vad-args then asr-args as JSON — on the first decode error, print
it and return before any pipeline or Server is constructed — then build
the pipelines and the Server with sampling_rate 16000 and samples_width 2.
The Python json.loads function is external and is abstracted as the
jsonLoads parameter. -/
def pyMain {α : Type} (jsonLoads : String → Except String α)
    (opts : List CliOpt) : MainResult α :=
  let args := parse_args opts
  match jsonLoads args.vad_args with
  | .error e => .parseError e
  | .ok vad =>
    match jsonLoads args.asr_args with
    | .error e => .parseError e
    | .ok asr =>
      .started vad asr
        ⟨args.host, args.port, 16000, 2, args.certfile, args.keyfile⟩

/-- Whether an Except value is a failure. -/
def exceptFailed {ε α : Type} : Except ε α → Bool
  | .error _ => true
  | .ok _ => false

/-- The tunability the spec asserts for the audio format: some command
line makes main start a Server whose sampling rate differs from 16000 or
whose sample width differs from 2. -/
def audioFormatTunable : Prop :=
  ∃ (opts : List CliOpt) (jl : String → Except String Unit)
    (v a : Unit) (cfg : ServerConfig),
    pyMain jl opts = .started v a cfg ∧
      (cfg.sampling_rate ≠ 16000 ∨ cfg.samples_width ≠ 2)

/-- A toy JSON decoder used to exercise main at concrete inputs: accepts
exactly the string ok. -/
def jlToy : String → Except String Unit :=
  fun s => if s = "ok" then .ok () else .error "Expecting value"

/-- A JSON decoder that accepts every string, used to exercise the
success path of main. -/
def jlAccept : String → Except String Unit := fun _ => .ok ()

/- ------------------------------------------------------------------ -/
/- Theorems. -/
/- ------------------------------------------------------------------ -/

/-- Whenever pyMain reports a started server, its Server was constructed
with sampling_rate 16000 and samples_width 2 (src/main.py lines 111-112),
whatever the command line and whatever the JSON decoder returned. -/
theorem pyMain_started_format {α : Type} (jl : String → Except String α)
    (opts : List CliOpt) (v a : α) (cfg : ServerConfig)
    (h : pyMain jl opts = MainResult.started v a cfg) :
    cfg.sampling_rate = 16000 ∧ cfg.samples_width = 2 := by
  simp only [pyMain] at h
  split at h
  · exact MainResult.noConfusion h
  · split at h
    · exact MainResult.noConfusion h
    · cases h
      exact ⟨rfl, rfl⟩

/-- C7: whenever the detector returns UNCERTAIN for a frame, the
SegmentAssembler stays in its current phase and emits nothing, in every
state (IDLE, ACCUMULATING, TRAILING_SILENCE). -/
theorem c7_uncertain_no_transition (cfg : SAConfig) (s : SAState)
    (f : LFrame) (hf : f.label = Vad.uncertain) :
    (saStep cfg s f).st.phase = s.phase ∧ (saStep cfg s f).emits = [] := by
  obtain ⟨ph, b, t⟩ := s
  cases ph <;> simp [saStep, hf]

/-- Witness for C7 at a concrete state and frame. -/
theorem c7_uncertain_no_transition_witness :
    (saStep ⟨1, 4, 2⟩ ⟨Phase.trailing, [⟨1, Vad.speech⟩], 1⟩
        ⟨1, Vad.uncertain⟩).st.phase = Phase.trailing ∧
    (saStep ⟨1, 4, 2⟩ ⟨Phase.trailing, [⟨1, Vad.speech⟩], 1⟩
        ⟨1, Vad.uncertain⟩).emits = [] :=
  c7_uncertain_no_transition ⟨1, 4, 2⟩
    ⟨Phase.trailing, [⟨1, Vad.speech⟩], 1⟩ ⟨1, Vad.uncertain⟩ rfl

/-- C8: the health endpoint handler is stateless and fixed: for every
request it responds with body OK and HTTP status 200. -/
theorem c8_health_check_fixed (r : HttpRequest) :
    (health_check r).text = "OK" ∧ (health_check r).status = 200 :=
  ⟨rfl, rfl⟩

/-- C9 counterexample: no command line makes pyMain start a Server whose
sampling rate differs from 16000 or whose sample width differs from 2:
the audio format is not a tunable of the command-line surface. -/
theorem c9_not_tunable_counterexample : ¬ audioFormatTunable := by
  rintro ⟨opts, jl, v, a, cfg, hmain, hne⟩
  rcases pyMain_started_format jl opts v a cfg hmain with ⟨h1, h2⟩
  rcases hne with h | h
  · exact h h1
  · exact h h2

/-- C9 amended: the sampling rate and sample width are passed to the
Server explicitly at construction, but as the fixed constants 16000 and
2 for every command line — they are not exposed as tunables. -/
theorem c9_audio_format_fixed {α : Type} (jl : String → Except String α)
    (opts : List CliOpt) (v a : α) (cfg : ServerConfig)
    (h : pyMain jl opts = MainResult.started v a cfg) :
    cfg.sampling_rate = 16000 ∧ cfg.samples_width = 2 :=
  pyMain_started_format jl opts v a cfg h

/-- Witness for C9 amended: the default command line starts a Server,
and its audio format is the fixed one. -/
theorem c9_audio_format_fixed_witness :
    (⟨"127.0.0.1", 8765, 16000, 2, none, none⟩ : ServerConfig).sampling_rate
        = 16000 ∧
    (⟨"127.0.0.1", 8765, 16000, 2, none, none⟩ : ServerConfig).samples_width
        = 2 :=
  c9_audio_format_fixed jlAccept [] () ()
    ⟨"127.0.0.1", 8765, 16000, 2, none, none⟩ rfl

/-- C10: whenever decoding vad-args or asr-args fails, pyMain returns a
parse-error outcome carrying the decode error: no VAD pipeline, ASR
pipeline or Server is constructed and no event loop is started. -/
theorem c10_malformed_json_aborts {α : Type}
    (jl : String → Except String α) (opts : List CliOpt)
    (hfail : exceptFailed (jl (parse_args opts).vad_args) = true ∨
      exceptFailed (jl (parse_args opts).asr_args) = true) :
    ∃ e, pyMain jl opts = MainResult.parseError e := by
  simp only [pyMain]
  cases h1 : jl (parse_args opts).vad_args with
  | error e => exact ⟨e, rfl⟩
  | ok vv =>
    cases h2 : jl (parse_args opts).asr_args with
    | error e => exact ⟨e, rfl⟩
    | ok aa =>
      simp [exceptFailed, h1, h2] at hfail

/-- Witness for C10: a command line whose vad-args is not JSON makes
pyMain return the parse-error outcome. -/
theorem c10_malformed_json_aborts_witness :
    ∃ e, pyMain jlToy [CliOpt.vadArgs "not json"]
      = MainResult.parseError e :=
  c10_malformed_json_aborts jlToy [CliOpt.vadArgs "not json"]
    (Or.inl (by decide))

/-- Unfolding lemma: a run over the empty frame list leaves the state
unchanged and produces nothing. -/
theorem saRunFrom_nil (cfg : SAConfig) (s : SAState) :
    saRunFrom cfg s [] = ⟨s, [], []⟩ := rfl

/-- Unfolding lemma: the segments of a run over f :: fs are those of the
step on f followed by those of the run over fs. -/
theorem saRunFrom_cons_emits (cfg : SAConfig) (s : SAState) (f : LFrame)
    (fs : List LFrame) :
    (saRunFrom cfg s (f :: fs)).emits = (saStep cfg s f).emits
      ++ (saRunFrom cfg (saStep cfg s f).st fs).emits := rfl

/-- Unfolding lemma: the discards of a run over f :: fs are those of the
step on f followed by those of the run over fs. -/
theorem saRunFrom_cons_disc (cfg : SAConfig) (s : SAState) (f : LFrame)
    (fs : List LFrame) :
    (saRunFrom cfg s (f :: fs)).disc = (saStep cfg s f).disc
      ++ (saRunFrom cfg (saStep cfg s f).st fs).disc := rfl

/-- Unfolding lemma: the final state of a run over f :: fs is the final
state of the run over fs from the stepped state. -/
theorem saRunFrom_cons_st (cfg : SAConfig) (s : SAState) (f : LFrame)
    (fs : List LFrame) :
    (saRunFrom cfg s (f :: fs)).st
      = (saRunFrom cfg (saStep cfg s f).st fs).st := rfl

/-- A run over a single frame is exactly one step. -/
theorem saRunFrom_singleton (cfg : SAConfig) (s : SAState) (f : LFrame) :
    saRunFrom cfg s [f] = saStep cfg s f := by
  rw [show saRunFrom cfg s [f]
      = ⟨(saStep cfg s f).st, (saStep cfg s f).emits ++ [],
         (saStep cfg s f).disc ++ []⟩ from rfl]
  simp

/-- The duration of concatenated frame lists is the sum of durations. -/
theorem sumDur_append (a b : List LFrame) :
    sumDur (a ++ b) = sumDur a + sumDur b := by
  simp [sumDur]

/-- The duration of a cons. -/
theorem sumDur_cons (f : LFrame) (l : List LFrame) :
    sumDur (f :: l) = f.dur + sumDur l := by
  simp [sumDur]

/-- Finalization conserves frames: the emitted segment and the discard
list together are exactly the buffer. -/
theorem finalizeBuf_flatten (cfg : SAConfig) (b : List LFrame) :
    (finalizeBuf cfg b).1.flatten ++ (finalizeBuf cfg b).2 = b := by
  unfold finalizeBuf
  split <;> simp

/-- One assembler step conserves frames: segments emitted, frames
discarded and the frames still buffered are a permutation of the old
buffer plus the consumed frame. -/
theorem saStep_perm (cfg : SAConfig) (s : SAState) (f : LFrame) :
    ((saStep cfg s f).emits.flatten ++ (saStep cfg s f).disc
      ++ (saStep cfg s f).st.buf).Perm (s.buf ++ [f]) := by
  obtain ⟨d, lab⟩ := f
  obtain ⟨ph, b, t⟩ := s
  cases lab <;> cases ph <;>
    simp [saStep, capOrStay, finalizeBuf] <;>
    first
    | exact (List.perm_append_singleton _ _).symm
    | (split_ifs <;> simp)

/-- Rearrangement in a commutative monoid used to chain step conservation
with run conservation. -/
theorem msChain {M : Type} [AddCommMonoid M] (A1 A2 B1 B2 C O S F R : M)
    (h1 : A1 + B1 + O = S + F) (h2 : A2 + B2 + C = O + R) :
    A1 + A2 + (B1 + B2) + C = S + (F + R) := by
  have e1 : A1 + A2 + (B1 + B2) + C = (A1 + B1) + (A2 + B2 + C) := by abel
  rw [e1, h2]
  have e2 : (A1 + B1) + (O + R) = (A1 + B1 + O) + R := by abel
  rw [e2, h1]
  abel

/-- Rearrangement in a commutative monoid used to absorb the final flush
into run conservation. -/
theorem msAbsorb {M : Type} [AddCommMonoid M] (E1 E2 D1 D2 O T : M)
    (h1 : E1 + D1 + O = T) (h2 : E2 + D2 = O) :
    E1 + E2 + (D1 + D2) = T := by
  rw [← h1, ← h2]
  abel

/-- Step conservation as a multiset identity. -/
theorem saStep_ms (cfg : SAConfig) (s : SAState) (f : LFrame) :
    ((saStep cfg s f).emits.flatten : Multiset LFrame)
      + ((saStep cfg s f).disc : Multiset LFrame)
      + ((saStep cfg s f).st.buf : Multiset LFrame)
      = (s.buf : Multiset LFrame) + (([f] : List LFrame) : Multiset LFrame) := by
  rw [Multiset.coe_add, Multiset.coe_add, Multiset.coe_add,
      Multiset.coe_eq_coe]
  exact saStep_perm cfg s f

/-- Run conservation: over any frame list, the emitted segments, the
discarded frames and the final buffer together are exactly the initial
buffer plus the consumed frames, as multisets. -/
theorem saRunFrom_ms (cfg : SAConfig) :
    ∀ (fs : List LFrame) (s : SAState),
      ((saRunFrom cfg s fs).emits.flatten : Multiset LFrame)
        + ((saRunFrom cfg s fs).disc : Multiset LFrame)
        + ((saRunFrom cfg s fs).st.buf : Multiset LFrame)
        = (s.buf : Multiset LFrame) + (fs : Multiset LFrame) := by
  intro fs
  induction fs with
  | nil => intro s; simp [saRunFrom_nil]
  | cons f rest ih =>
    intro s
    rw [saRunFrom_cons_emits, saRunFrom_cons_disc, saRunFrom_cons_st,
        List.flatten_append]
    rw [show ((f :: rest : List LFrame) : Multiset LFrame)
        = (([f] ++ rest : List LFrame) : Multiset LFrame) from rfl]
    simp only [← Multiset.coe_add]
    exact msChain _ _ _ _ _ _ _ _ _ (saStep_ms cfg s f)
      (ih (saStep cfg s f).st)

/-- The end-of-stream flush conserves the buffer as a multiset. -/
theorem closeFlush_ms (cfg : SAConfig) (s : SAState) :
    ((closeFlush cfg s).1.flatten : Multiset LFrame)
      + ((closeFlush cfg s).2 : Multiset LFrame)
      = (s.buf : Multiset LFrame) := by
  unfold closeFlush finalizeBuf
  split_ifs with h1 h2 <;> simp [h1]

/-- C2: every audio frame a session receives ends up in exactly one
emitted SpeechSegment or in the discard list (confirmed silence or
below-minimum noise), never duplicated and never lost: the segments and
discards of a full run are a permutation of the input frames. -/
theorem c2_frame_conservation (cfg : SAConfig) (fs : List LFrame) :
    ((saRunClose cfg fs).emits.flatten
      ++ (saRunClose cfg fs).disc).Perm fs := by
  rw [← Multiset.coe_eq_coe, ← Multiset.coe_add]
  simp only [saRunClose, saRun, List.flatten_append]
  simp only [← Multiset.coe_add]
  have h1 := saRunFrom_ms cfg fs saInit
  have h2 := closeFlush_ms cfg (saRunFrom cfg saInit fs).st
  rw [show ((saInit.buf : List LFrame) : Multiset LFrame) = 0 from rfl,
      zero_add] at h1
  exact msAbsorb _ _ _ _ _ _ h1 h2

/-- Every segment emitted by a single step meets the minimum segment
duration. -/
theorem saStep_emits_min (cfg : SAConfig) (s : SAState) (f : LFrame) :
    ∀ seg ∈ (saStep cfg s f).emits, cfg.minDur ≤ sumDur seg := by
  obtain ⟨d, lab⟩ := f
  obtain ⟨ph, b, t⟩ := s
  cases lab <;> cases ph <;>
    simp [saStep, capOrStay, finalizeBuf] <;>
    split_ifs <;> simp_all

/-- Every segment emitted while streaming meets the minimum segment
duration. -/
theorem saRunFrom_emits_min (cfg : SAConfig) :
    ∀ (fs : List LFrame) (s : SAState) (seg : List LFrame),
      seg ∈ (saRunFrom cfg s fs).emits → cfg.minDur ≤ sumDur seg := by
  intro fs
  induction fs with
  | nil => intro s seg h; simp [saRunFrom_nil] at h
  | cons f rest ih =>
    intro s seg h
    rw [saRunFrom_cons_emits] at h
    rcases List.mem_append.mp h with h | h
    · exact saStep_emits_min cfg s f seg h
    · exact ih (saStep cfg s f).st seg h

/-- Every segment emitted by the end-of-stream flush meets the minimum
segment duration. -/
theorem closeFlush_emits_min (cfg : SAConfig) (s : SAState) :
    ∀ seg ∈ (closeFlush cfg s).1, cfg.minDur ≤ sumDur seg := by
  unfold closeFlush finalizeBuf
  split_ifs <;> simp_all

/-- C5: a buffer whose total duration is below the minimum segment
duration is never emitted: every segment of a full session run — hence
everything handed to the dispatcher — meets the minimum duration, so
below-minimum audio is only ever discarded as noise. -/
theorem c5_min_duration_not_emitted (cfg : SAConfig) (fs : List LFrame)
    (seg : List LFrame) (h : seg ∈ (saRunClose cfg fs).emits) :
    cfg.minDur ≤ sumDur seg := by
  simp only [saRunClose] at h
  rcases List.mem_append.mp h with h | h
  · exact saRunFrom_emits_min cfg fs saInit seg h
  · exact closeFlush_emits_min cfg (saRun cfg fs).st seg h

/-- Witness for C5: in a concrete run that does emit a segment, the
emitted segment meets the minimum duration. -/
theorem c5_min_duration_not_emitted_witness :
    (2 : Nat) ≤ sumDur [⟨4, Vad.speech⟩] :=
  c5_min_duration_not_emitted ⟨2, 4, 2⟩ [⟨4, Vad.speech⟩]
    [⟨4, Vad.speech⟩] (by decide)

/-- C6 counterexample: with minimum duration 10, a session holding a
single 2-unit speech frame closes with a non-empty buffer, yet the flush
emits nothing: the buffer is discarded under the minimum-duration policy
rather than emitted as a final segment. -/
theorem c6_flush_counterexample :
    (saRun ⟨10, 100, 5⟩ [⟨2, Vad.speech⟩]).st.buf ≠ [] ∧
    (saRunClose ⟨10, 100, 5⟩ [⟨2, Vad.speech⟩]).emits = [] := by
  decide

/-- C6 amended: on connection close / end-of-stream, a non-empty
accumulated buffer is emitted as one final segment provided it meets the
minimum segment duration; a below-minimum buffer is discarded as noise,
and an empty buffer emits nothing. -/
theorem c6_close_flush (cfg : SAConfig) (fs : List LFrame) :
    (saRunClose cfg fs).emits = (saRun cfg fs).emits ++
      (if (saRun cfg fs).st.buf ≠ [] ∧
          cfg.minDur ≤ sumDur (saRun cfg fs).st.buf
       then [(saRun cfg fs).st.buf] else []) := by
  simp only [saRunClose, closeFlush, finalizeBuf]
  split_ifs <;> simp_all

/-- A SPEECH frame always moves the assembler through the ACCUMULATING
append-and-cap-check path, whatever the current phase. -/
theorem saStep_speech (cfg : SAConfig) (s : SAState) (f : LFrame)
    (hf : f.label = Vad.speech) :
    saStep cfg s f = capOrStay cfg (s.buf ++ [f]) Phase.accumulating 0 := by
  simp [saStep, hf]

/-- While the accumulated duration stays below the cap, a non-empty run
of SPEECH frames only appends: no segment is emitted, nothing is
discarded, and the assembler ends ACCUMULATING with all frames
buffered. -/
theorem saRunFrom_speech (cfg : SAConfig) :
    ∀ (xs : List LFrame) (s : SAState), xs ≠ [] →
      (∀ f ∈ xs, f.label = Vad.speech) →
      sumDur (s.buf ++ xs) < cfg.maxDur →
      saRunFrom cfg s xs
        = ⟨⟨Phase.accumulating, s.buf ++ xs, 0⟩, [], []⟩ := by
  intro xs
  induction xs with
  | nil => intro s h; exact absurd rfl h
  | cons x rest ih =>
    intro s _ hall hlt
    have hx : x.label = Vad.speech := hall x (List.mem_cons_self x rest)
    have hone : sumDur (s.buf ++ [x]) < cfg.maxDur := by
      rw [sumDur_append] at hlt ⊢
      rw [sumDur_cons] at hlt
      simp [sumDur] at *
      omega
    have hstep : saStep cfg s x
        = ⟨⟨Phase.accumulating, s.buf ++ [x], 0⟩, [], []⟩ := by
      rw [saStep_speech cfg s x hx]
      simp [capOrStay, Nat.not_le.mpr hone]
    cases rest with
    | nil =>
      rw [saRunFrom_singleton, hstep]
    | cons y ys =>
      have hrest := ih ⟨Phase.accumulating, s.buf ++ [x], 0⟩
        (by simp)
        (fun f hf => hall f (List.mem_cons_of_mem x hf))
        (by simpa [List.append_assoc] using hlt)
      rw [show saRunFrom cfg s (x :: y :: ys)
            = ⟨(saRunFrom cfg (saStep cfg s x).st (y :: ys)).st,
               (saStep cfg s x).emits
                 ++ (saRunFrom cfg (saStep cfg s x).st (y :: ys)).emits,
               (saStep cfg s x).disc
                 ++ (saRunFrom cfg (saStep cfg s x).st (y :: ys)).disc⟩
          from rfl,
          hstep]
      simp only [hrest]
      simp [List.append_assoc]

/-- The final state of a run over as ++ bs is obtained by running bs from
the state reached after as. -/
theorem saRunFrom_append_st (cfg : SAConfig) (as bs : List LFrame) :
    ∀ s : SAState, (saRunFrom cfg s (as ++ bs)).st
      = (saRunFrom cfg (saRunFrom cfg s as).st bs).st := by
  induction as with
  | nil => intro s; rfl
  | cons f fs ih =>
    intro s
    simp only [List.cons_append, saRunFrom_cons_st, ih]

/-- The segments of a run over as ++ bs are those of as followed by those
of bs run from the intermediate state. -/
theorem saRunFrom_append_emits (cfg : SAConfig) (as bs : List LFrame) :
    ∀ s : SAState, (saRunFrom cfg s (as ++ bs)).emits
      = (saRunFrom cfg s as).emits
        ++ (saRunFrom cfg (saRunFrom cfg s as).st bs).emits := by
  induction as with
  | nil => intro s; simp [saRunFrom_nil]
  | cons f fs ih =>
    intro s
    simp only [List.cons_append, saRunFrom_cons_emits, saRunFrom_cons_st,
      ih, List.append_assoc]

/-- C3: on an all-SPEECH stream, the assembler emits exactly one segment
at the moment the accumulated duration reaches the maximum-duration cap
— the segment holding every frame so far — and the next SPEECH frame
immediately starts a new accumulating segment. -/
theorem c3_max_duration_cap (cfg : SAConfig) (xs : List LFrame)
    (y z : LFrame)
    (hall : ∀ f ∈ xs, f.label = Vad.speech) (hy : y.label = Vad.speech)
    (hz : z.label = Vad.speech)
    (hmm : cfg.minDur ≤ cfg.maxDur)
    (hlt : sumDur xs < cfg.maxDur)
    (hge : cfg.maxDur ≤ sumDur xs + y.dur)
    (hzlt : z.dur < cfg.maxDur) :
    (saRun cfg (xs ++ [y])).emits = [xs ++ [y]] ∧
    (saRun cfg (xs ++ [y])).st = saInit ∧
    (saRun cfg (xs ++ [y] ++ [z])).emits = [xs ++ [y]] ∧
    (saRun cfg (xs ++ [y] ++ [z])).st = ⟨Phase.accumulating, [z], 0⟩ := by
  have hxs : (saRunFrom cfg saInit xs).st.buf = xs ∧
      (saRunFrom cfg saInit xs).emits = [] := by
    cases hx0 : xs with
    | nil => subst hx0; exact ⟨rfl, rfl⟩
    | cons a as =>
      rw [← hx0]
      rw [saRunFrom_speech cfg xs saInit (by simp [hx0]) hall
        (by simpa [saInit] using hlt)]
      exact ⟨rfl, rfl⟩
  have hcap : cfg.maxDur ≤ sumDur (xs ++ [y]) := by
    rw [sumDur_append]
    have : sumDur [y] = y.dur := by simp [sumDur]
    omega
  have hmin : cfg.minDur ≤ sumDur (xs ++ [y]) := le_trans hmm hcap
  have hstepy : saStep cfg (saRunFrom cfg saInit xs).st y
      = ⟨saInit, [xs ++ [y]], []⟩ := by
    rw [saStep_speech _ _ _ hy, hxs.1]
    simp [capOrStay, hcap, finalizeBuf, hmin, saInit]
  have h1 : (saRun cfg (xs ++ [y])).emits = [xs ++ [y]] := by
    rw [saRun, saRunFrom_append_emits, saRunFrom_singleton, hstepy, hxs.2]
    rfl
  have h2 : (saRun cfg (xs ++ [y])).st = saInit := by
    rw [saRun, saRunFrom_append_st, saRunFrom_singleton, hstepy]
  have hstepz : saStep cfg saInit z
      = ⟨⟨Phase.accumulating, [z], 0⟩, [], []⟩ := by
    rw [saStep_speech _ _ _ hz]
    have : sumDur [z] < cfg.maxDur := by
      simpa [sumDur] using hzlt
    simp only [saInit]
    simp [capOrStay, Nat.not_le.mpr this]
  have h3 : (saRun cfg (xs ++ [y] ++ [z])).emits = [xs ++ [y]] := by
    rw [saRun, saRunFrom_append_emits, ← saRun, h1, h2,
      saRunFrom_singleton, hstepz]
    simp
  have h4 : (saRun cfg (xs ++ [y] ++ [z])).st
      = ⟨Phase.accumulating, [z], 0⟩ := by
    rw [saRun, saRunFrom_append_st, ← saRun, h2, saRunFrom_singleton,
      hstepz]
  exact ⟨h1, h2, h3, h4⟩

/-- Witness for C3: config with cap 4; two 2-unit SPEECH frames reach the
cap and are emitted as one segment; a following 1-unit SPEECH frame
starts a fresh accumulating segment. -/
theorem c3_max_duration_cap_witness :
    (saRun ⟨2, 4, 2⟩ ([⟨2, Vad.speech⟩] ++ [⟨2, Vad.speech⟩])).emits
        = [[⟨2, Vad.speech⟩] ++ [⟨2, Vad.speech⟩]] ∧
    (saRun ⟨2, 4, 2⟩ ([⟨2, Vad.speech⟩] ++ [⟨2, Vad.speech⟩])).st
        = saInit ∧
    (saRun ⟨2, 4, 2⟩
        ([⟨2, Vad.speech⟩] ++ [⟨2, Vad.speech⟩] ++ [⟨1, Vad.speech⟩])).emits
        = [[⟨2, Vad.speech⟩] ++ [⟨2, Vad.speech⟩]] ∧
    (saRun ⟨2, 4, 2⟩
        ([⟨2, Vad.speech⟩] ++ [⟨2, Vad.speech⟩] ++ [⟨1, Vad.speech⟩])).st
        = ⟨Phase.accumulating, [⟨1, Vad.speech⟩], 0⟩ :=
  c3_max_duration_cap ⟨2, 4, 2⟩ [⟨2, Vad.speech⟩] ⟨2, Vad.speech⟩
    ⟨1, Vad.speech⟩ (by decide) rfl rfl (by decide) (by decide)
    (by decide) (by decide)

/-- A SILENCE frame in IDLE is discarded as confirmed silence. -/
theorem saStep_silence_idle (cfg : SAConfig) (f : LFrame)
    (hf : f.label = Vad.silence) :
    saStep cfg saInit f = ⟨saInit, [], [f]⟩ := by
  simp [saStep, hf, saInit]

/-- In IDLE, a run of SILENCE frames discards them all and stays IDLE. -/
theorem saRunFrom_idle_silence (cfg : SAConfig) :
    ∀ (sil : List LFrame), (∀ f ∈ sil, f.label = Vad.silence) →
      saRunFrom cfg saInit sil = ⟨saInit, [], sil⟩ := by
  intro sil
  induction sil with
  | nil => intro _; rfl
  | cons f rest ih =>
    intro hall
    have hstep := saStep_silence_idle cfg f (hall f (List.mem_cons_self f rest))
    have ih' := ih (fun g hg => hall g (List.mem_cons_of_mem f hg))
    rw [show saRunFrom cfg saInit (f :: rest)
        = ⟨(saRunFrom cfg (saStep cfg saInit f).st rest).st,
           (saStep cfg saInit f).emits
             ++ (saRunFrom cfg (saStep cfg saInit f).st rest).emits,
           (saStep cfg saInit f).disc
             ++ (saRunFrom cfg (saStep cfg saInit f).st rest).disc⟩
        from rfl, hstep, ih']
    rfl

/-- A SILENCE frame while buffering, within the grace budget and below
the cap, is appended as trailing silence and advances the silence
timer. -/
theorem saStep_silence_cont (cfg : SAConfig) (ph : Phase)
    (b : List LFrame) (t : Nat) (f : LFrame) (hph : ph ≠ Phase.idle)
    (hf : f.label = Vad.silence) (hle : t + f.dur ≤ cfg.grace)
    (hcap : sumDur (b ++ [f]) < cfg.maxDur) :
    saStep cfg ⟨ph, b, t⟩ f
      = ⟨⟨Phase.trailing, b ++ [f], t + f.dur⟩, [], []⟩ := by
  cases ph <;> simp_all [saStep, capOrStay, Nat.not_le.mpr hcap]

/-- A SILENCE frame while buffering whose duration would push the
silence timer past the grace duration finalizes the buffer (which meets
the minimum duration), discards the frame, and resets to IDLE. -/
theorem saStep_silence_expire (cfg : SAConfig) (ph : Phase)
    (b : List LFrame) (t : Nat) (f : LFrame) (hph : ph ≠ Phase.idle)
    (hf : f.label = Vad.silence) (hgt : cfg.grace < t + f.dur)
    (hmin : cfg.minDur ≤ sumDur b) :
    saStep cfg ⟨ph, b, t⟩ f = ⟨saInit, [b], [f]⟩ := by
  cases ph <;> simp_all [saStep, finalizeBuf, Nat.not_le.mpr hgt, saInit]

/-- While buffering with a silence budget, a run of SILENCE frames whose
total duration exhausts the remaining grace appends a first stretch of
silence (at most the remaining grace), then finalizes the buffer exactly
once and discards the rest: exactly one segment is emitted and the
assembler ends IDLE. -/
theorem saRunFrom_silence_expiry (cfg : SAConfig) :
    ∀ (sil : List LFrame) (ph : Phase) (b : List LFrame) (t : Nat),
      ph ≠ Phase.idle →
      (∀ f ∈ sil, f.label = Vad.silence) →
      t ≤ cfg.grace →
      sumDur b + (cfg.grace - t) < cfg.maxDur →
      cfg.minDur ≤ sumDur b →
      cfg.grace < t + sumDur sil →
      ∃ p q, sil = p ++ q ∧ t + sumDur p ≤ cfg.grace ∧
        (saRunFrom cfg ⟨ph, b, t⟩ sil).emits = [b ++ p] ∧
        (saRunFrom cfg ⟨ph, b, t⟩ sil).st = saInit := by
  intro sil
  induction sil with
  | nil =>
    intro ph b t _ _ ht _ _ hgt
    have h0 : sumDur ([] : List LFrame) = 0 := rfl
    rw [h0] at hgt
    exact absurd hgt (by omega)
  | cons f rest ih =>
    intro ph b t hph hall ht hcap hmin hgt
    have hf : f.label = Vad.silence := hall f (List.mem_cons_self f rest)
    have hfd : sumDur [f] = f.dur := by simp [sumDur]
    by_cases hle : t + f.dur ≤ cfg.grace
    · have hcap1 : sumDur (b ++ [f]) < cfg.maxDur := by
        rw [sumDur_append, hfd]
        omega
      have hstep := saStep_silence_cont cfg ph b t f hph hf hle hcap1
      have ih' := ih Phase.trailing (b ++ [f]) (t + f.dur)
        (by decide)
        (fun g hg => hall g (List.mem_cons_of_mem f hg))
        hle
        (by rw [sumDur_append, hfd]; omega)
        (le_trans hmin (by rw [sumDur_append]; omega))
        (by rw [sumDur_cons] at hgt; omega)
      obtain ⟨p, q, hpq, hple, hem, hst⟩ := ih'
      refine ⟨f :: p, q, by rw [hpq]; rfl, ?_, ?_, ?_⟩
      · rw [sumDur_cons]; omega
      · rw [saRunFrom_cons_emits, hstep, hem]
        simp
      · rw [saRunFrom_cons_st, hstep, hst]
    · have hstep := saStep_silence_expire cfg ph b t f hph hf
        (by omega) hmin
      have hrest := saRunFrom_idle_silence cfg rest
        (fun g hg => hall g (List.mem_cons_of_mem f hg))
      refine ⟨[], f :: rest, rfl, by simpa [sumDur] using ht, ?_, ?_⟩
      · rw [saRunFrom_cons_emits, hstep, hrest]
        simp
      · rw [saRunFrom_cons_st, hstep, hrest]

/-- C4: for speech followed by over-grace silence (speech at or above the
minimum duration and short enough that the cap is not hit), exactly one
segment is emitted: all the speech frames plus at most a grace-duration
worth of trailing silence, and nothing more; the assembler ends IDLE. -/
theorem c4_trailing_silence (cfg : SAConfig) (sp sil : List LFrame)
    (hsp : sp ≠ []) (hallsp : ∀ f ∈ sp, f.label = Vad.speech)
    (hallsil : ∀ f ∈ sil, f.label = Vad.silence)
    (hmin : cfg.minDur ≤ sumDur sp)
    (hcap : sumDur sp + cfg.grace < cfg.maxDur)
    (hsil : cfg.grace < sumDur sil) :
    ∃ p q, sil = p ++ q ∧ sumDur p ≤ cfg.grace ∧
      (saRun cfg (sp ++ sil)).emits = [sp ++ p] ∧
      (saRun cfg (sp ++ sil)).st = saInit := by
  have hsp' : saRunFrom cfg saInit sp
      = ⟨⟨Phase.accumulating, sp, 0⟩, [], []⟩ := by
    have h := saRunFrom_speech cfg sp saInit hsp hallsp
      (by simpa [saInit] using (show sumDur sp < cfg.maxDur by omega))
    simpa [saInit] using h
  obtain ⟨p, q, hpq, hple, hem, hst⟩ :=
    saRunFrom_silence_expiry cfg sil Phase.accumulating sp 0
      (by decide) hallsil (Nat.zero_le _)
      (by omega) hmin (by omega)
  refine ⟨p, q, hpq, by omega, ?_, ?_⟩
  · rw [saRun, saRunFrom_append_emits, hsp', hem]
    rfl
  · rw [saRun, saRunFrom_append_st, hsp', hst]

/-- Witness for C4: a 2-unit speech frame followed by three 1-unit
silence frames, with grace 2: one segment containing the speech plus at
most 2 units of silence is emitted and the assembler ends IDLE. -/
theorem c4_trailing_silence_witness :
    ∃ p q,
      [(⟨1, Vad.silence⟩ : LFrame), ⟨1, Vad.silence⟩, ⟨1, Vad.silence⟩]
        = p ++ q ∧
      sumDur p ≤ (2 : Nat) ∧
      (saRun ⟨1, 10, 2⟩ ([⟨2, Vad.speech⟩]
        ++ [⟨1, Vad.silence⟩, ⟨1, Vad.silence⟩, ⟨1, Vad.silence⟩])).emits
        = [[⟨2, Vad.speech⟩] ++ p] ∧
      (saRun ⟨1, 10, 2⟩ ([⟨2, Vad.speech⟩]
        ++ [⟨1, Vad.silence⟩, ⟨1, Vad.silence⟩, ⟨1, Vad.silence⟩])).st
        = saInit :=
  c4_trailing_silence ⟨1, 10, 2⟩ [⟨2, Vad.speech⟩]
    [⟨1, Vad.silence⟩, ⟨1, Vad.silence⟩, ⟨1, Vad.silence⟩]
    (by decide) (by decide) (by decide) (by decide) (by decide)
    (by decide)

/-- The dispatch invariant holds initially. -/
theorem dispInv_init (bound : Nat) : dispInv bound dispInit := by
  refine ⟨?_, ?_, ?_⟩ <;> simp [dispInit, dispInv]

/-- One dispatch transition preserves the dispatch invariant. -/
theorem dispStep_inv (bound : Nat) (s : DispState) (e : DispEvent)
    (h : dispInv bound s) : dispInv bound (dispStep bound s e) := by
  obtain ⟨h1, h2, h3⟩ := h
  cases e with
  | finalize =>
    cases hf : s.inFlight with
    | none =>
      have hq : s.queue = [] := h3 hf
      rw [hf, hq] at h1
      simp only [Option.toList, List.append_nil] at h1
      refine ⟨?_, ?_, ?_⟩ <;>
        simp [dispStep, hf, hq, List.range_succ, h1]
    | some j =>
      by_cases hb : s.queue.length < bound
      · rw [hf] at h1
        simp only [dispStep, hf, if_pos hb]
        refine ⟨?_, ?_, ?_⟩
        · rw [List.range_succ, ← List.append_assoc, h1]
        · simp only [List.length_append, List.length_cons,
            List.length_nil]
          omega
        · intro hnone
          simp at hnone
      · simp only [dispStep, hf, if_neg hb]
        exact ⟨h1, h2, fun hnone => by simp [hf] at hnone⟩
  | complete =>
    cases hf : s.inFlight with
    | none =>
      have hs : dispStep bound s DispEvent.complete = s := by
        simp [dispStep, hf]
      rw [hs]
      exact ⟨h1, h2, h3⟩
    | some j =>
      cases hq : s.queue with
      | nil =>
        rw [hf, hq] at h1
        refine ⟨?_, ?_, ?_⟩ <;>
          simp_all [dispStep, hf, hq, Option.toList]
      | cons k rest =>
        rw [hf, hq] at h1
        refine ⟨?_, ?_, ?_⟩ <;>
          simp_all [dispStep, hf, hq, Option.toList]
        omega

/-- The dispatch invariant holds after any event sequence from any
invariant state. -/
theorem dispFoldl_inv (bound : Nat) :
    ∀ (evs : List DispEvent) (s : DispState), dispInv bound s →
      dispInv bound (evs.foldl (dispStep bound) s) := by
  intro evs
  induction evs with
  | nil => intro s h; exact h
  | cons e rest ih =>
    intro s h
    exact ih (dispStep bound s e) (dispStep_inv bound s e h)

/-- C1: for every event sequence of a session, at most one segment is in
flight at a time, the pending queue never exceeds its bound, and the
delivered results are exactly 0, 1, 2, ... in order — result N+1 is
never delivered before result N. -/
theorem c1_serialized_in_order (bound : Nat) (evs : List DispEvent) :
    (dispRun bound evs).inFlight.toList.length ≤ 1 ∧
    (dispRun bound evs).queue.length ≤ bound ∧
    (dispRun bound evs).delivered
      = List.range (dispRun bound evs).delivered.length := by
  simp only [dispRun]
  obtain ⟨h1, h2, -⟩ := dispFoldl_inv bound evs dispInit (dispInv_init bound)
  refine ⟨?_, h2, ?_⟩
  · cases (List.foldl (dispStep bound) dispInit evs).inFlight <;>
      simp [Option.toList]
  · have hlen : (List.foldl (dispStep bound) dispInit evs).delivered.length
        ≤ (List.foldl (dispStep bound) dispInit evs).nextSeq := by
      have hl := congrArg List.length h1
      simp only [List.length_append, List.length_range] at hl
      omega
    have htake := congrArg
      (List.take
        (List.foldl (dispStep bound) dispInit evs).delivered.length) h1
    rw [List.append_assoc, List.take_left, List.take_range,
        min_eq_left hlen] at htake
    exact htake
